import Mathlib

/-!
A shallow embedding of the sliding-window prediction utilities of
`src/utils/pred.py`: the window-grid construction shared by
`RSImageSlideWindowManager.__init__` and
`ImageDataset._get_tile_coordinates`, the streaming raster window
manager, the content-filtered tile dataset, and the weighted
accumulation engine `WeightedPredictManager`.

Modelling conventions: machine floats are modelled by exact rationals,
raster pixel intensities by naturals, and numpy arrays / GDAL rasters by
index functions.  Python exceptions are modelled by an explicit error
type; where the original code raises, the embedded operation returns the
corresponding error value.
-/

/-- An entry `[y1, y2, x1, x2]` of a windows list. -/
structure Window where
  y1 : Int
  y2 : Int
  x1 : Int
  x2 : Int
deriving DecidableEq, Repr

/-- The Python runtime errors that the embedded code can raise. -/
inductive PyError where
  | zeroDivision
  | assertionError
  | attributeError
  | indexError
deriving DecidableEq, Repr

/-- `int(np.ceil(a / b))` on integers: exact ceiling division
(`np.ceil` of the true quotient; `int` truncation is the identity on the
already-integral ceiling). -/
def ceilDivInt (a b : Int) : Int := -((-a).fdiv b)

/-- The window grid built in `RSImageSlideWindowManager.__init__` (and,
identically, in `ImageDataset._get_tile_coordinates` before content
filtering): `stride = window_sz - overlap`, row and column counts
`int(np.ceil((extent - window_sz) / stride)) + 1`, and window starts
clamped by `min(i * stride, extent - window_sz)`. -/
def slideWindows (H W T O : Int) : List Window :=
  let stride := T - O
  let nH := (ceilDivInt (H - T) stride + 1).toNat
  let nW := (ceilDivInt (W - T) stride + 1).toNat
  (List.range nH).flatMap (fun (i : Nat) =>
    let dh := min ((i : Int) * stride) (H - T)
    (List.range nW).map (fun (j : Nat) =>
      let dw := min ((j : Int) * stride) (W - T)
      { y1 := dh, y2 := dh + T, x1 := dw, x2 := dw + T }))

/-- The window construction of `RSImageSlideWindowManager.__init__` as
executed by Python: when `stride = window_sz - overlap` is zero the
true-division `(img_h - window_sz) / stride` raises `ZeroDivisionError`;
no other validation of `overlap` against `window_sz` exists in the
constructor. -/
def mkWindows (H W T O : Int) : Except PyError (List Window) :=
  if T - O = 0 then .error .zeroDivision else .ok (slideWindows H W T O)

/-- Python list indexing `l[i]`, including negative-index wrap-around;
`none` models `IndexError`. -/
def pyGet {α : Type} (l : List α) (i : Int) : Option α :=
  let j := if i < 0 then (l.length : Int) + i else i
  if 0 ≤ j then l.get? j.toNat else none

/-- State of `RSImageSlideWindowManager`: tiling geometry, the source
raster as an index function `(band, row, col) ↦ pixel value`, the window
list and the cursor `window_i`. -/
structure RSImageSlideWindowManager where
  window_sz : Int
  overlap : Int
  img_h : Int
  img_w : Int
  out_bands : Nat
  in_bands : Nat
  in_raster : Nat → Int → Int → Nat
  windows : List Window
  window_i : Nat

/-- `im_data.max()` over a `(bands, tsz, tsz)` block. -/
def blockMax (bands tsz : Nat) (blk : Nat → Int → Int → Nat) : Nat :=
  ((List.range bands).flatMap fun (c : Nat) =>
    (List.range tsz).flatMap fun (y : Nat) =>
      (List.range tsz).map fun (x : Nat) => blk c (y : Int) (x : Int)).foldr max 0

/-- Outcome of `RSImageSlideWindowManager.get_next`: the `None` sentinel
at the end of the window list, a raised error, or the returned block
together with the advanced manager state. -/
inductive GetNextResult where
  | atEnd
  | error (e : PyError)
  | ok (block : Nat → Int → Int → Nat) (st : RSImageSlideWindowManager)

/-- `RSImageSlideWindowManager.get_next`: return `None` once the cursor
reaches the end; otherwise read the current window's block, run
`assert im_data.max() <= 256`, advance the cursor and return the block
cast with `astype(np.uint8)` (values reduced mod 256).  The
`np.newaxis` fix-up for 2-dimensional (single-band) blocks is the
identity in this band-indexed model. -/
def RSImageSlideWindowManager.get_next (st : RSImageSlideWindowManager) : GetNextResult :=
  if st.window_i = st.windows.length then .atEnd
  else
    match st.windows.get? st.window_i with
    | none => .error .indexError
    | some w =>
      let blk : Nat → Int → Int → Nat := fun c y x => st.in_raster c (w.y1 + y) (w.x1 + x)
      if blockMax st.in_bands st.window_sz.toNat blk ≤ 256 then
        .ok (fun c y x => blk c y x % 256) { st with window_i := st.window_i + 1 }
      else .error .assertionError

/-- GDAL `band.WriteArray(block, xoff, yoff)` for a block of shape
`(h, w)`: overwrite that rectangle of one band of the output raster,
leaving every other cell unchanged. -/
def writeBlock (out : Nat → Int → Int → ℚ) (band : Nat) (blk : Int → Int → ℚ)
    (h w yoff xoff : Int) : Nat → Int → Int → ℚ :=
  fun b y x =>
    if b = band ∧ yoff ≤ y ∧ y < yoff + h ∧ xoff ≤ x ∧ x < xoff + w then
      blk (y - yoff) (x - xoff)
    else out b y x

/-- `RSImageSlideWindowManager.fit_result`: look up
`windows[window_i - 1]` with Python list indexing, compute the four trim
amounts (`overlap // 2`, or `0` on a side lying on the global boundary),
slice `result[i, dy1:window_sz-dy2, dx1:window_sz-dx2]` and write it at
`(x1+dx1, y1+dy1)`, one output band at a time.  `result` is indexed
`(band, row, col)`; the output raster is an index function. -/
def RSImageSlideWindowManager.fit_result (st : RSImageSlideWindowManager)
    (result : Nat → Int → Int → ℚ) (out : Nat → Int → Int → ℚ) :
    Except PyError (Nat → Int → Int → ℚ) :=
  match pyGet st.windows ((st.window_i : Int) - 1) with
  | none => .error .indexError
  | some w =>
    let t := st.overlap.fdiv 2
    let dy1 : Int := if w.y1 = 0 then 0 else t
    let dy2 : Int := if w.y2 = st.img_h then 0 else t
    let dx1 : Int := if w.x1 = 0 then 0 else t
    let dx2 : Int := if w.x2 = st.img_w then 0 else t
    .ok ((List.range st.out_bands).foldl
      (fun acc i =>
        writeBlock acc i (fun y x => result i (dy1 + y) (dx1 + x))
          (st.window_sz - dy2 - dy1) (st.window_sz - dx2 - dx1)
          (w.y1 + dy1) (w.x1 + dx1)) out)

/-- Is `p` a cell of the zeroed one-pixel border of the padded
`(ph+2, pw+2)` matrix built in `WeightedPredictManager.__init__`? -/
def borderZero (ph pw : Nat) (p : Nat × Nat) : Bool :=
  p.1 = 0 || p.1 = ph + 1 || p.2 = 0 || p.2 = pw + 1

/-- The zero cells of the padded matrix, in row-major order. -/
def zeroCells (ph pw : Nat) : List (Nat × Nat) :=
  ((List.range (ph + 2)).flatMap fun i =>
    (List.range (pw + 2)).map fun j => (i, j)).filter (borderZero ph pw)

/-- `|a - b|` on naturals. -/
def absDiff (a b : Nat) : Nat := max a b - min a b

/-- Squared Euclidean distance between two grid cells. -/
def sqDist (p q : Nat × Nat) : Nat := absDiff p.1 q.1 ^ 2 + absDiff p.2 q.2 ^ 2

/-- Squared distance from cell `p` of the padded matrix to its nearest
zero cell: the square of the value `scipy.ndimage.distance_transform_edt`
assigns to `p`.  The fold is seeded with the corner `(0, 0)`, itself a
zero cell, so it is the genuine minimum. -/
def minSqDistToZero (ph pw : Nat) (p : Nat × Nat) : Nat :=
  ((zeroCells ph pw).map (fun q => sqDist p q)).foldr min (sqDist p (0, 0))

/-- The squared weight kernel `patch_weights` of
`WeightedPredictManager.__init__` after cropping the one-pixel border:
cell `(i, j)` of the `(ph, pw)` result is cell `(i+1, j+1)` of the
padded matrix.  The float kernel stored by the code is the square root
of this value, so a kernel cell is zero exactly when this is zero, and
order comparisons between cells are preserved. -/
def patchWeightsSq (ph pw i j : Nat) : Nat := minSqDistToZero ph pw (i + 1, j + 1)

/-- A single prediction patch, indexed `(channel, row, col)`. -/
abbrev Patch := Nat → Int → Int → ℚ

/-- State of `WeightedPredictManager`: map extents, patch shape, the
accumulation buffer `map`, the weight buffer `weight_map` (one channel),
and the blending kernel `patch_weights` fixed at construction. -/
@[ext]
structure WeightedPredictManager where
  map_h : Nat
  map_w : Nat
  map_c : Nat
  patch_h : Nat
  patch_w : Nat
  map : Nat → Int → Int → ℚ
  weight_map : Int → Int → ℚ
  patch_weights : Int → Int → ℚ

/-- Membership of buffer cell `(y, x)` in the patch region
`[y1, y1+ph) × [x1, x1+pw)` touched by one `update` entry. -/
def inPatch (ph pw : Nat) (y1 x1 y x : Int) : Prop :=
  y1 ≤ y ∧ y < y1 + ph ∧ x1 ≤ x ∧ x < x1 + pw

instance (ph pw : Nat) (y1 x1 y x : Int) : Decidable (inPatch ph pw y1 x1 y x) :=
  inferInstanceAs (Decidable (_ ∧ _ ∧ _ ∧ _))

/-- The per-entry bounds assertion of `WeightedPredictManager.update`:
`y1 + patch_h <= map_h and x1 + patch_w <= map_w`. -/
def WeightedPredictManager.fits (m : WeightedPredictManager) (w : Window) : Prop :=
  w.y1 + (m.patch_h : Int) ≤ m.map_h ∧ w.x1 + (m.patch_w : Int) ≤ m.map_w

instance (m : WeightedPredictManager) (w : Window) : Decidable (m.fits w) :=
  inferInstanceAs (Decidable (_ ∧ _))

/-- One iteration of the loop body of `WeightedPredictManager.update`:
`map[:, y1:y1+patch_h, x1:x1+patch_w] += patch_weights * pred` and
`weight_map[:, y1:y1+patch_h, x1:x1+patch_w] += patch_weights`. -/
def WeightedPredictManager.applyEntry (m : WeightedPredictManager)
    (pred : Patch) (w : Window) : WeightedPredictManager :=
  { m with
    map := fun c y x =>
      if inPatch m.patch_h m.patch_w w.y1 w.x1 y x then
        m.map c y x + m.patch_weights (y - w.y1) (x - w.x1) * pred c (y - w.y1) (x - w.x1)
      else m.map c y x
    weight_map := fun y x =>
      if inPatch m.patch_h m.patch_w w.y1 w.x1 y x then
        m.weight_map y x + m.patch_weights (y - w.y1) (x - w.x1)
      else m.weight_map y x }

/-- The entry loop of `WeightedPredictManager.update`: apply entries in
order until the first failing bounds assertion, which aborts the call
while keeping every earlier write. -/
def WeightedPredictManager.updateGo (m : WeightedPredictManager) :
    List (Patch × Window) → WeightedPredictManager × Option PyError
  | [] => (m, none)
  | e :: rest =>
    if m.fits e.2 then (m.applyEntry e.1 e.2).updateGo rest
    else (m, some .assertionError)

/-- `WeightedPredictManager.update`.  `ndim` is `preds.ndim`; when it is
not 4 the leading `assert preds.ndim == 4, preds.shpae` fails and
evaluating its (misspelled) message raises `AttributeError` before
anything is written.  `entries` pairs `preds[i]` with `windows[i]` in
loop order. -/
def WeightedPredictManager.update (m : WeightedPredictManager) (ndim : Nat)
    (entries : List (Patch × Window)) : WeightedPredictManager × Option PyError :=
  if ndim = 4 then m.updateGo entries else (m, some .attributeError)

/-- Unconditional application of a list of entries (the action of the
loop when every bounds assertion passes). -/
def WeightedPredictManager.applyList (m : WeightedPredictManager)
    (l : List (Patch × Window)) : WeightedPredictManager :=
  l.foldl (fun s e => s.applyEntry e.1 e.2) m

/-- A sequence of `update` calls, each on a 4-dimensional batch, keeping
only the evolving manager state. -/
def WeightedPredictManager.applyCalls (m : WeightedPredictManager)
    (cs : List (List (Patch × Window))) : WeightedPredictManager :=
  cs.foldl (fun s b => (s.update 4 b).1) m

/-- The contribution of one entry to accumulation-buffer cell
`(c, y, x)`. -/
def entryContrib (ph pw : Nat) (K : Int → Int → ℚ) (e : Patch × Window)
    (c : Nat) (y x : Int) : ℚ :=
  if inPatch ph pw e.2.y1 e.2.x1 y x then
    K (y - e.2.y1) (x - e.2.x1) * e.1 c (y - e.2.y1) (x - e.2.x1)
  else 0

/-- The contribution of one entry to weight-buffer cell `(y, x)`. -/
def weightContrib (ph pw : Nat) (K : Int → Int → ℚ) (e : Patch × Window)
    (y x : Int) : ℚ :=
  if inPatch ph pw e.2.y1 e.2.x1 y x then K (y - e.2.y1) (x - e.2.x1) else 0

/-- `np.sum(image[dh:dh+T, dw:dw+T, :])` for a channel-last in-memory
image given as an index function `(row, col, channel) ↦ value`. -/
def tileSum (image : Int → Int → Nat → ℚ) (dh dw T : Int) (c : Nat) : ℚ :=
  (((List.range T.toNat).flatMap fun (y : Nat) =>
    (List.range T.toNat).flatMap fun (x : Nat) =>
      (List.range c).map fun (ch : Nat) =>
        image (dh + (y : Int)) (dw + (x : Int)) ch)).sum

/-- `ImageDataset._get_tile_coordinates`: the same double loop as
`slideWindows`, except that a window whose pixel sum over the image is
exactly zero is skipped (`continue`). -/
def ImageDataset.getTileCoordinates (image : Int → Int → Nat → ℚ)
    (img_h img_w : Int) (img_c : Nat) (T O : Int) : List Window :=
  let stride := T - O
  let nH := (ceilDivInt (img_h - T) stride + 1).toNat
  let nW := (ceilDivInt (img_w - T) stride + 1).toNat
  (List.range nH).flatMap (fun (i : Nat) =>
    let dh := min ((i : Int) * stride) (img_h - T)
    (List.range nW).filterMap (fun (j : Nat) =>
      let dw := min ((j : Int) * stride) (img_w - T)
      if tileSum image dh dw T img_c = 0 then none
      else some { y1 := dh, y2 := dh + T, x1 := dw, x2 := dw + T }))

/-- An all-zero result patch, used to exercise `fit_result`. -/
def zeroResult : Nat → Int → Int → ℚ := fun _ _ _ => 0

/-- A blank output raster. -/
def zeroOut : Nat → Int → Int → ℚ := fun _ _ _ => 0

/-- A single-band manager over an all-zero 10×10 raster with the spec's
concrete geometry `window_sz = 6`, `overlap = 2`, cursor at 0 (no
`get_next` has happened). -/
def swm0 : RSImageSlideWindowManager :=
  { window_sz := 6, overlap := 2, img_h := 10, img_w := 10,
    out_bands := 1, in_bands := 1, in_raster := fun _ _ _ => 0,
    windows := slideWindows 10 10 6 2, window_i := 0 }

/-- The same manager after exactly one `get_next` (cursor at 1). -/
def swm1 : RSImageSlideWindowManager := { swm0 with window_i := 1 }

/-- The same manager over a raster holding the single value 256 — one
more than the uint8 ceiling 255 — at band 0, pixel `(0, 0)`. -/
def swm256 : RSImageSlideWindowManager :=
  { swm0 with in_raster := fun c y x => if c = 0 ∧ y = 0 ∧ x = 0 then 256 else 0 }

/-- A small accumulation manager: 1-channel 2×2 buffers, 1×1 patches,
constant kernel. -/
def wpm0 : WeightedPredictManager :=
  { map_h := 2, map_w := 2, map_c := 1, patch_h := 1, patch_w := 1,
    map := fun _ _ _ => 0, weight_map := fun _ _ => 0,
    patch_weights := fun _ _ => 1 }

/-- A constant-1 prediction on the window `[0, 1, 0, 1]`. -/
def entryA : Patch × Window :=
  (fun _ _ _ => 1, { y1 := 0, y2 := 1, x1 := 0, x2 := 1 })

/-- A constant-2 prediction on the window `[1, 2, 1, 2]`. -/
def entryB : Patch × Window :=
  (fun _ _ _ => 2, { y1 := 1, y2 := 2, x1 := 1, x2 := 2 })

/-- A prediction whose window `[5, 6, 0, 1]` fails the bounds assertion
of `wpm0` (`5 + 1 ≤ 2` is false). -/
def entryBad : Patch × Window :=
  (fun _ _ _ => 1, { y1 := 5, y2 := 6, x1 := 0, x2 := 1 })

lemma le_ceilDivInt_mul (a : Int) {b : Int} (hb : 0 < b) : a ≤ ceilDivInt a b * b := by
  unfold ceilDivInt
  have hfd : (-a).fdiv b = (-a) / b := Int.fdiv_eq_ediv _ (le_of_lt hb)
  have hdm := Int.ediv_add_emod (-a) b
  have hr0 : 0 ≤ (-a) % b := Int.emod_nonneg _ (ne_of_gt hb)
  have hcomm : b * ((-a) / b) = ((-a) / b) * b := mul_comm _ _
  have hmul : -((-a).fdiv b) * b = -(((-a) / b) * b) := by rw [hfd]; ring
  linarith

lemma mem_slideWindows {H W T O : Int} {w : Window} :
    w ∈ slideWindows H W T O ↔
    ∃ i j : Nat, i < (ceilDivInt (H - T) (T - O) + 1).toNat ∧
      j < (ceilDivInt (W - T) (T - O) + 1).toNat ∧
      w = { y1 := min ((i : Int) * (T - O)) (H - T),
            y2 := min ((i : Int) * (T - O)) (H - T) + T,
            x1 := min ((j : Int) * (T - O)) (W - T),
            x2 := min ((j : Int) * (T - O)) (W - T) + T } := by
  simp only [slideWindows]
  rw [List.mem_flatMap]
  constructor
  · rintro ⟨i, hi, hw⟩
    rw [List.mem_map] at hw
    obtain ⟨j, hj, he⟩ := hw
    exact ⟨i, j, List.mem_range.mp hi, List.mem_range.mp hj, he.symm⟩
  · rintro ⟨i, j, hi, hj, he⟩
    refine ⟨i, List.mem_range.mpr hi, ?_⟩
    rw [List.mem_map]
    exact ⟨j, List.mem_range.mpr hj, he.symm⟩

lemma slideWindows_sides {H W T O : Int} (hOT : O < T) (hTH : T ≤ H) (hTW : T ≤ W) :
    ∀ w ∈ slideWindows H W T O,
      w.y2 - w.y1 = T ∧ w.x2 - w.x1 = T ∧
      0 ≤ w.y1 ∧ w.y2 ≤ H ∧ 0 ≤ w.x1 ∧ w.x2 ≤ W := by
  intro w hw
  rw [mem_slideWindows] at hw
  obtain ⟨i, j, hi, hj, rfl⟩ := hw
  dsimp only
  have hiy : (0 : Int) ≤ (i : Int) * (T - O) :=
    mul_nonneg (Int.natCast_nonneg i) (by omega)
  have hjx : (0 : Int) ≤ (j : Int) * (T - O) :=
    mul_nonneg (Int.natCast_nonneg j) (by omega)
  have h1 := min_le_right ((i : Int) * (T - O)) (H - T)
  have h2 := min_le_right ((j : Int) * (T - O)) (W - T)
  have h3 : (0 : Int) ≤ min ((i : Int) * (T - O)) (H - T) := le_min hiy (by omega)
  have h4 : (0 : Int) ≤ min ((j : Int) * (T - O)) (W - T) := le_min hjx (by omega)
  refine ⟨by ring, by ring, h3, by linarith, h4, by linarith⟩

lemma slideCover1D {L T O y : Int} (hO : 0 < O) (hOT : O < T) (hTL : T ≤ L)
    (hy0 : 0 ≤ y) (hyL : y < L) :
    ∃ i : Nat, i < (ceilDivInt (L - T) (T - O) + 1).toNat ∧
      min ((i : Int) * (T - O)) (L - T) ≤ y ∧
      y < min ((i : Int) * (T - O)) (L - T) + T := by
  set s := T - O with hsdef
  have hs0 : 0 < s := by omega
  set k := ceilDivInt (L - T) s with hkdef
  have hkmul : L - T ≤ k * s := le_ceilDivInt_mul _ hs0
  have hk0 : 0 ≤ k := by
    by_contra hneg
    push_neg at hneg
    have hk1 : k ≤ -1 := by omega
    have : k * s ≤ (-1) * s := mul_le_mul_of_nonneg_right hk1 (le_of_lt hs0)
    have : k * s ≤ -s := by linarith
    linarith
  have hdm := Int.ediv_add_emod y s
  have hr0 : 0 ≤ y % s := Int.emod_nonneg y (ne_of_gt hs0)
  have hrs : y % s < s := Int.emod_lt_of_pos y hs0
  set q := y / s with hqdef
  have hq0 : 0 ≤ q := Int.ediv_nonneg hy0 (le_of_lt hs0)
  have hcomm : q * s = s * q := mul_comm q s
  have hqle : q * s ≤ y := by linarith
  have hexp : (q + 1) * s = s * q + s := by ring
  have hylt : y < (q + 1) * s := by linarith
  set i0 := min q k with hi0def
  have hi00 : 0 ≤ i0 := le_min hq0 hk0
  have hcast : (i0.toNat : Int) = i0 := Int.toNat_of_nonneg hi00
  refine ⟨i0.toNat, ?_, ?_, ?_⟩
  · have hik : i0 ≤ k := min_le_right _ _
    omega
  · rw [hcast]
    have h1 : i0 * s ≤ q * s :=
      mul_le_mul_of_nonneg_right (min_le_left _ _) (le_of_lt hs0)
    have h2 := min_le_left (i0 * s) (L - T)
    linarith
  · rw [hcast]
    rcases le_or_lt (L - T) (i0 * s) with hc | hc
    · rw [min_eq_right hc]; omega
    · have hik : i0 ≠ k := by
        intro he
        rw [he] at hc
        linarith
      have hi0q : i0 = q := by
        rcases le_total q k with h | h
        · rw [hi0def, min_eq_left h]
        · exact absurd (by rw [hi0def, min_eq_right h]) hik
      rw [hi0q] at hc ⊢
      rw [min_eq_left (le_of_lt hc)]
      linarith

/-- C1: the claim admits `T ≤ max(H, W)`, but when `T` exceeds the
smaller extent the clamp `min(i * stride, extent - window_sz)` is
negative and the single generated row of windows starts above the
raster: for `H = 5, W = 10, T = 6, O = 2` (so `0 < O < T ≤ max(H, W)`)
the window list is `[[-1, 5, 0, 6], [-1, 5, 4, 10]]`, whose entries
violate `0 ≤ y1` and whose union is `[-1, 5) × [0, 10)`, not
`[0, 5) × [0, 10)`. -/
theorem C1_counterexample :
    slideWindows 5 10 6 2 =
      [{ y1 := -1, y2 := 5, x1 := 0, x2 := 6 },
       { y1 := -1, y2 := 5, x1 := 4, x2 := 10 }] ∧
    ¬ (∀ w ∈ slideWindows 5 10 6 2, 0 ≤ w.y1 ∧ w.y2 ≤ 5 ∧ 0 ≤ w.x1 ∧ w.x2 ≤ 10) := by
  constructor
  · decide
  · decide

/-- C1 (amended: `T ≤ min(H, W)` in place of `T ≤ max(H, W)`): for every
extent `(H, W)`, tile size `T` and overlap `O` with `0 < O < T ≤ H` and
`T ≤ W`, every window of the grid is a `T × T` rectangle lying inside
the extent, and the union of the windows is exactly `[0, H) × [0, W)`. -/
theorem C1_theorem (H W T O : Int) (hO : 0 < O) (hOT : O < T)
    (hTH : T ≤ H) (hTW : T ≤ W) :
    (∀ w ∈ slideWindows H W T O,
       w.y2 - w.y1 = T ∧ w.x2 - w.x1 = T ∧
       0 ≤ w.y1 ∧ w.y2 ≤ H ∧ 0 ≤ w.x1 ∧ w.x2 ≤ W) ∧
    (∀ y x : Int, (0 ≤ y ∧ y < H ∧ 0 ≤ x ∧ x < W) ↔
       ∃ w ∈ slideWindows H W T O, w.y1 ≤ y ∧ y < w.y2 ∧ w.x1 ≤ x ∧ x < w.x2) := by
  refine ⟨slideWindows_sides hOT hTH hTW, fun y x => ⟨?_, ?_⟩⟩
  · rintro ⟨hy0, hyH, hx0, hxW⟩
    obtain ⟨i, hi, hiy1, hiy2⟩ := slideCover1D hO hOT hTH hy0 hyH
    obtain ⟨j, hj, hjx1, hjx2⟩ := slideCover1D hO hOT hTW hx0 hxW
    exact ⟨_, mem_slideWindows.mpr ⟨i, j, hi, hj, rfl⟩, hiy1, hiy2, hjx1, hjx2⟩
  · rintro ⟨w, hw, h1, h2, h3, h4⟩
    obtain ⟨-, -, hb1, hb2, hb3, hb4⟩ := slideWindows_sides hOT hTH hTW w hw
    exact ⟨by linarith, by linarith, by linarith, by linarith⟩

/-- C1 witness: the amended theorem instantiated at the spec's concrete
case `H = W = 10`, `T = 6`, `O = 2`. -/
theorem C1_witness :
    (∀ w ∈ slideWindows 10 10 6 2,
       w.y2 - w.y1 = 6 ∧ w.x2 - w.x1 = 6 ∧
       0 ≤ w.y1 ∧ w.y2 ≤ 10 ∧ 0 ≤ w.x1 ∧ w.x2 ≤ 10) ∧
    (∀ y x : Int, (0 ≤ y ∧ y < 10 ∧ 0 ≤ x ∧ x < 10) ↔
       ∃ w ∈ slideWindows 10 10 6 2, w.y1 ≤ y ∧ y < w.y2 ∧ w.x1 ≤ x ∧ x < w.x2) :=
  C1_theorem 10 10 6 2 (by decide) (by decide) (by decide) (by decide)

/-- C2: the claim requires an error for every `O ≥ T`, but the
constructor performs no overlap validation at all: with `H = W = 10`,
`T = 6`, `O = 8` (so `O > T`) the partition succeeds and silently
produces an empty window grid. -/
theorem C2_counterexample :
    mkWindows 10 10 6 8 = .ok [] ∧ (6 : Int) < 8 := by
  exact ⟨rfl, by decide⟩

/-- C2 (amended): constructing the window grid fails only when
`overlap = window_sz` — and then with a Python `ZeroDivisionError` from
the stride division, not a `ConfigError`; for every `O > T` (and every
`O < T`) no error is raised, the grid being possibly empty or
degenerate. -/
theorem C2_theorem (H W T O : Int) :
    mkWindows H W T O = .error .zeroDivision ↔ O = T := by
  unfold mkWindows
  by_cases h : T - O = 0
  · rw [if_pos h]
    simp only [true_iff]
    omega
  · rw [if_neg h]
    constructor
    · intro hcon
      exact absurd hcon (by simp)
    · intro he
      omega

lemma mem_zeroCells {ph pw : Nat} {q : Nat × Nat} :
    q ∈ zeroCells ph pw ↔
      q.1 < ph + 2 ∧ q.2 < pw + 2 ∧ borderZero ph pw q = true := by
  unfold zeroCells
  rw [List.mem_filter]
  constructor
  · rintro ⟨hg, hb⟩
    rw [List.mem_flatMap] at hg
    obtain ⟨i, hi, hq⟩ := hg
    rw [List.mem_map] at hq
    obtain ⟨j, hj, rfl⟩ := hq
    exact ⟨List.mem_range.mp hi, List.mem_range.mp hj, hb⟩
  · rintro ⟨h1, h2, hb⟩
    refine ⟨?_, hb⟩
    rw [List.mem_flatMap]
    exact ⟨q.1, List.mem_range.mpr h1, List.mem_map.mpr ⟨q.2, List.mem_range.mpr h2, rfl⟩⟩

lemma foldr_min_le_of_mem {l : List Nat} {d x : Nat} (hx : x ∈ l) :
    l.foldr min d ≤ x := by
  induction l with
  | nil => cases hx
  | cons a t ih =>
    rcases List.mem_cons.mp hx with rfl | hx1
    · exact min_le_left _ _
    · exact le_trans (min_le_right _ _) (ih hx1)

lemma le_foldr_min {l : List Nat} {c d : Nat} (hd : c ≤ d)
    (h : ∀ x ∈ l, c ≤ x) : c ≤ l.foldr min d := by
  induction l with
  | nil => exact hd
  | cons a t ih =>
    exact le_min (h a (List.mem_cons_self a t))
      (ih fun x hx => h x (List.mem_cons_of_mem _ hx))

lemma one_le_sqDist {p q : Nat × Nat} (h : p.1 ≠ q.1 ∨ p.2 ≠ q.2) :
    1 ≤ sqDist p q := by
  unfold sqDist
  rcases h with h | h
  · have h2 : 1 ≤ absDiff p.1 q.1 ^ 2 :=
      Nat.one_le_pow _ _ (by unfold absDiff; omega)
    exact le_trans h2 (Nat.le_add_right _ _)
  · have h2 : 1 ≤ absDiff p.2 q.2 ^ 2 :=
      Nat.one_le_pow _ _ (by unfold absDiff; omega)
    exact le_trans h2 (Nat.le_add_left _ _)

/-- C3: the claim asserts the kernel is `0` on the outermost ring, but
the one-pixel zero padding is cropped away before the kernel is used:
for patch shape `(3, 3)` the corner cell `(0, 0)` of the cropped kernel
sits at (squared) Euclidean distance `1` from the nearest zero cell of
the padded matrix, so its value is `1`, not `0`. -/
theorem C3_counterexample :
    patchWeightsSq 3 3 0 0 = 1 ∧ patchWeightsSq 3 3 0 0 ≠ 0 := by decide

/-- C3 (amended): for every patch shape `(ph, pw)` with `ph, pw ≥ 1`,
every cell of the outermost ring of the cropped `(ph, pw)` kernel has
Euclidean-distance-transform value exactly `1` (squared distance `1` to
the padded border), hence in particular nonzero. -/
theorem C3_theorem (ph pw i j : Nat) (hph : 1 ≤ ph) (hpw : 1 ≤ pw)
    (hi : i < ph) (hj : j < pw)
    (hring : i = 0 ∨ i = ph - 1 ∨ j = 0 ∨ j = pw - 1) :
    patchWeightsSq ph pw i j = 1 := by
  unfold patchWeightsSq minSqDistToZero
  apply le_antisymm
  · have hq : ∃ q ∈ zeroCells ph pw, sqDist (i + 1, j + 1) q = 1 := by
      rcases hring with h0 | h0 | h0 | h0
      · refine ⟨(0, j + 1), mem_zeroCells.mpr ⟨by omega, by omega, by simp [borderZero]⟩, ?_⟩
        show absDiff (i + 1) 0 ^ 2 + absDiff (j + 1) (j + 1) ^ 2 = 1
        rw [show absDiff (i + 1) 0 = 1 by unfold absDiff; omega,
          show absDiff (j + 1) (j + 1) = 0 by unfold absDiff; omega]
        norm_num
      · refine ⟨(ph + 1, j + 1), mem_zeroCells.mpr ⟨by omega, by omega, by simp [borderZero]⟩, ?_⟩
        show absDiff (i + 1) (ph + 1) ^ 2 + absDiff (j + 1) (j + 1) ^ 2 = 1
        rw [show absDiff (i + 1) (ph + 1) = 1 by unfold absDiff; omega,
          show absDiff (j + 1) (j + 1) = 0 by unfold absDiff; omega]
        norm_num
      · refine ⟨(i + 1, 0), mem_zeroCells.mpr ⟨by omega, by omega, by simp [borderZero]⟩, ?_⟩
        show absDiff (i + 1) (i + 1) ^ 2 + absDiff (j + 1) 0 ^ 2 = 1
        rw [show absDiff (i + 1) (i + 1) = 0 by unfold absDiff; omega,
          show absDiff (j + 1) 0 = 1 by unfold absDiff; omega]
        norm_num
      · refine ⟨(i + 1, pw + 1), mem_zeroCells.mpr ⟨by omega, by omega, by simp [borderZero]⟩, ?_⟩
        show absDiff (i + 1) (i + 1) ^ 2 + absDiff (j + 1) (pw + 1) ^ 2 = 1
        rw [show absDiff (i + 1) (i + 1) = 0 by unfold absDiff; omega,
          show absDiff (j + 1) (pw + 1) = 1 by unfold absDiff; omega]
        norm_num
    obtain ⟨q, hqmem, hqd⟩ := hq
    have hmm : sqDist (i + 1, j + 1) q ∈
        (zeroCells ph pw).map (fun q => sqDist (i + 1, j + 1) q) :=
      List.mem_map.mpr ⟨q, hqmem, rfl⟩
    exact le_trans (foldr_min_le_of_mem hmm) (le_of_eq hqd)
  · apply le_foldr_min
    · exact one_le_sqDist (Or.inl (by omega))
    · intro x hx
      rw [List.mem_map] at hx
      obtain ⟨q, hqmem, rfl⟩ := hx
      rw [mem_zeroCells] at hqmem
      obtain ⟨hq1, hq2, hqb⟩ := hqmem
      simp only [borderZero, Bool.or_eq_true, decide_eq_true_eq] at hqb
      rcases hqb with ((h | h) | h) | h
      · exact one_le_sqDist (Or.inl (by omega))
      · exact one_le_sqDist (Or.inl (by omega))
      · exact one_le_sqDist (Or.inr (by omega))
      · exact one_le_sqDist (Or.inr (by omega))

/-- C3 witness: the amended theorem at patch shape `(3, 3)`, ring cell
`(0, 1)`. -/
theorem C3_witness : patchWeightsSq 3 3 0 1 = 1 :=
  C3_theorem 3 3 0 1 (by decide) (by decide) (by decide) (by decide) (Or.inl rfl)

lemma pyGet_isSome {α : Type} {l : List α} {i : Int}
    (h1 : -(l.length : Int) ≤ i) (h2 : i < l.length) :
    ∃ a, pyGet l i = some a := by
  simp only [pyGet]
  by_cases hi : i < 0
  · simp only [hi, if_true]
    rw [if_pos (by omega : (0 : Int) ≤ (l.length : Int) + i)]
    cases hg : l.get? ((l.length : Int) + i).toNat with
    | none =>
      rw [List.get?_eq_none] at hg
      omega
    | some a => exact ⟨a, rfl⟩
  · simp only [hi, if_false]
    rw [if_pos (by omega : (0 : Int) ≤ i)]
    cases hg : l.get? i.toNat with
    | none =>
      rw [List.get?_eq_none] at hg
      omega
    | some a => exact ⟨a, rfl⟩

/-- C5: no state error exists.  With no `get_next` ever called
(cursor 0), `fit_result` succeeds: the index `window_i - 1 = -1` is
resolved by Python negative indexing to the LAST window `[4, 10, 4, 10]`
and the write proceeds.  And after a single `get_next` (cursor 1), two
successive `fit_result` calls both succeed against the same window. -/
theorem C5_counterexample :
    swm0.window_i = 0 ∧
    pyGet swm0.windows ((swm0.window_i : Int) - 1) =
      some { y1 := 4, y2 := 10, x1 := 4, x2 := 10 } ∧
    (∃ o, swm0.fit_result zeroResult zeroOut = .ok o) ∧
    (∃ o o2, swm1.fit_result zeroResult zeroOut = .ok o ∧
      swm1.fit_result zeroResult o = .ok o2) := by
  exact ⟨rfl, by decide, ⟨_, rfl⟩, ⟨_, _, rfl, rfl⟩⟩

/-- C5 (amended): `fit_result` raises no state error.  For every manager
with a nonempty window list and an in-range cursor it succeeds, and when
it is called before any `get_next` (cursor 0) the Python index `-1`
resolves to the final window of the grid (index `length - 1`); a
repeated call leaves the cursor untouched and simply rewrites the same
window. -/
theorem C5_theorem (st : RSImageSlideWindowManager)
    (r out : Nat → Int → Int → ℚ)
    (hne : st.windows ≠ [])
    (hle : st.window_i ≤ st.windows.length) :
    (∃ o, st.fit_result r out = .ok o) ∧
    (st.window_i = 0 →
      pyGet st.windows ((st.window_i : Int) - 1) =
        st.windows.get? (st.windows.length - 1)) := by
  have hlen : 0 < st.windows.length := List.length_pos.mpr hne
  constructor
  · obtain ⟨w, hw⟩ :=
      pyGet_isSome (l := st.windows) (i := (st.window_i : Int) - 1)
        (by omega) (by omega)
    unfold RSImageSlideWindowManager.fit_result
    rw [hw]
    exact ⟨_, rfl⟩
  · intro h0
    simp only [pyGet, h0]
    rw [if_pos (by omega : ((0 : Nat) : Int) - 1 < 0)]
    rw [if_pos (by omega : (0 : Int) ≤ (st.windows.length : Int) + (((0 : Nat) : Int) - 1))]
    congr 1
    omega

/-- C5 witness: the amended theorem at the concrete 10×10 manager with
cursor 0. -/
theorem C5_witness :
    (∃ o, swm0.fit_result zeroResult zeroOut = .ok o) ∧
    (swm0.window_i = 0 →
      pyGet swm0.windows ((swm0.window_i : Int) - 1) =
        swm0.windows.get? (swm0.windows.length - 1)) :=
  C5_theorem swm0 zeroResult zeroOut (by decide) (by decide)

/-- C6: the bit-depth assertion is off by one.  The claim (and the
spec's intent, given the `astype(np.uint8)` cast that follows) is to
reject any pixel above 255, but the code asserts `im_data.max() <= 256`:
on a raster whose pixel `(0, 0, 0)` holds 256, `get_next` succeeds and
silently wraps that pixel to 0 in the returned uint8 block. -/
theorem C6_theorem :
    swm256.in_raster 0 0 0 = 256 ∧ 255 < swm256.in_raster 0 0 0 ∧
    (∃ b st2, swm256.get_next = .ok b st2 ∧ b 0 0 0 = 0) := by
  exact ⟨by decide, by decide, ⟨_, _, rfl, rfl⟩⟩

lemma foldl_writeBlock_range (n : Nat) (f : Nat → Int → Int → ℚ)
    (h w yo xo : Int) (acc : Nat → Int → Int → ℚ) (b : Nat) (y x : Int) :
    ((List.range n).foldl (fun a i => writeBlock a i (f i) h w yo xo) acc) b y x =
      if b < n ∧ yo ≤ y ∧ y < yo + h ∧ xo ≤ x ∧ x < xo + w then
        f b (y - yo) (x - xo)
      else acc b y x := by
  induction n with
  | zero =>
    rw [if_neg (by omega : ¬(b < 0 ∧ _))]
    rfl
  | succ n ih =>
    rw [List.range_succ, List.foldl_append, List.foldl_cons, List.foldl_nil]
    have hwb : ∀ o : Nat → Int → Int → ℚ,
        writeBlock o n (f n) h w yo xo b y x =
        if b = n ∧ yo ≤ y ∧ y < yo + h ∧ xo ≤ x ∧ x < xo + w then
          f n (y - yo) (x - xo)
        else o b y x := fun o => rfl
    rw [hwb, ih]
    by_cases hb : b = n
    · subst hb
      by_cases hr : yo ≤ y ∧ y < yo + h ∧ xo ≤ x ∧ x < xo + w
      · rw [if_pos ⟨rfl, hr.1, hr.2.1, hr.2.2.1, hr.2.2.2⟩,
          if_pos ⟨Nat.lt_succ_self b, hr.1, hr.2.1, hr.2.2.1, hr.2.2.2⟩]
      · have hnot1 : ¬(b = b ∧ yo ≤ y ∧ y < yo + h ∧ xo ≤ x ∧ x < xo + w) :=
          fun hc => hr ⟨hc.2.1, hc.2.2.1, hc.2.2.2.1, hc.2.2.2.2⟩
        have hnot2 : ¬(b < b ∧ yo ≤ y ∧ y < yo + h ∧ xo ≤ x ∧ x < xo + w) :=
          fun hc => Nat.lt_irrefl b hc.1
        have hnot3 : ¬(b < b + 1 ∧ yo ≤ y ∧ y < yo + h ∧ xo ≤ x ∧ x < xo + w) :=
          fun hc => hr ⟨hc.2.1, hc.2.2.1, hc.2.2.2.1, hc.2.2.2.2⟩
        rw [if_neg hnot1, if_neg hnot2, if_neg hnot3]
    · rw [if_neg (fun hc => hb hc.1)]
      exact if_congr
        ⟨fun hc => ⟨by omega, hc.2⟩, fun hc => ⟨by omega, hc.2⟩⟩ rfl rfl

/-- C7: for the window `[y1, y2, x1, x2]` addressed by `fit_result`
(the one most recently returned by `get_next`), the call writes, for
every output band `b`, exactly the trimmed interior
`result[b, dy1 : T - dy2, dx1 : T - dx2]` at offset
`(y1 + dy1, x1 + dx1)`, where each trim amount is `overlap // 2` except
on a side touching the global boundary (`y1 = 0`, `y2 = H`, `x1 = 0` or
`x2 = W`), where it is `0`; every output cell outside the written
rectangles keeps its previous value. -/
theorem C7_theorem (st : RSImageSlideWindowManager)
    (result out : Nat → Int → Int → ℚ) (w : Window)
    (_hcur : 1 ≤ st.window_i)
    (hw : pyGet st.windows ((st.window_i : Int) - 1) = some w) :
    st.fit_result result out = .ok (fun b y x =>
      if b < st.out_bands ∧
         w.y1 + (if w.y1 = 0 then 0 else st.overlap.fdiv 2) ≤ y ∧
         y < w.y1 + st.window_sz -
           (if w.y2 = st.img_h then 0 else st.overlap.fdiv 2) ∧
         w.x1 + (if w.x1 = 0 then 0 else st.overlap.fdiv 2) ≤ x ∧
         x < w.x1 + st.window_sz -
           (if w.x2 = st.img_w then 0 else st.overlap.fdiv 2) then
        result b (y - w.y1) (x - w.x1)
      else out b y x) := by
  unfold RSImageSlideWindowManager.fit_result
  rw [hw]
  dsimp only
  congr 1
  funext b y x
  rw [foldl_writeBlock_range]
  set d1 : Int := if w.y1 = 0 then 0 else st.overlap.fdiv 2 with hd1
  set d2 : Int := if w.y2 = st.img_h then 0 else st.overlap.fdiv 2 with hd2
  set d3 : Int := if w.x1 = 0 then 0 else st.overlap.fdiv 2 with hd3
  set d4 : Int := if w.x2 = st.img_w then 0 else st.overlap.fdiv 2 with hd4
  have hcond : (b < st.out_bands ∧ w.y1 + d1 ≤ y ∧
      y < w.y1 + d1 + (st.window_sz - d2 - d1) ∧ w.x1 + d3 ≤ x ∧
      x < w.x1 + d3 + (st.window_sz - d4 - d3)) ↔
      (b < st.out_bands ∧ w.y1 + d1 ≤ y ∧ y < w.y1 + st.window_sz - d2 ∧
       w.x1 + d3 ≤ x ∧ x < w.x1 + st.window_sz - d4) := by
    constructor
    · rintro ⟨h1, h2, h3, h4, h5⟩
      exact ⟨h1, h2, by omega, h4, by omega⟩
    · rintro ⟨h1, h2, h3, h4, h5⟩
      exact ⟨h1, h2, by omega, h4, by omega⟩
  have hval : result b (d1 + (y - (w.y1 + d1))) (d3 + (x - (w.x1 + d3))) =
      result b (y - w.y1) (x - w.x1) := by
    have e1 : d1 + (y - (w.y1 + d1)) = y - w.y1 := by ring
    have e2 : d3 + (x - (w.x1 + d3)) = x - w.x1 := by ring
    rw [e1, e2]
  exact if_congr hcond hval rfl

/-- C7 witness: the theorem at the concrete manager `swm1` (10×10
raster, `T = 6`, `O = 2`, one `get_next` done), whose current window is
the top-left tile `[0, 6, 0, 6]`: the bottom and right sides are trimmed
by `overlap // 2 = 1` while the two boundary-touching sides are not. -/
theorem C7_witness :
    swm1.fit_result zeroResult zeroOut = .ok (fun b y x =>
      if b < 1 ∧ (0 : Int) ≤ y ∧ y < 5 ∧ (0 : Int) ≤ x ∧ x < 5 then
        zeroResult b (y - 0) (x - 0)
      else zeroOut b y x) :=
  C7_theorem swm1 zeroResult zeroOut
    { y1 := 0, y2 := 6, x1 := 0, x2 := 6 } (by decide) (by decide)

lemma applyList_nil (m : WeightedPredictManager) : m.applyList [] = m := rfl

lemma applyList_cons (m : WeightedPredictManager) (e : Patch × Window)
    (t : List (Patch × Window)) :
    m.applyList (e :: t) = (m.applyEntry e.1 e.2).applyList t := rfl

lemma applyList_append (m : WeightedPredictManager)
    (l1 l2 : List (Patch × Window)) :
    m.applyList (l1 ++ l2) = (m.applyList l1).applyList l2 := by
  unfold WeightedPredictManager.applyList
  rw [List.foldl_append]

lemma applyList_fields (l : List (Patch × Window)) (m : WeightedPredictManager) :
    (m.applyList l).map_h = m.map_h ∧ (m.applyList l).map_w = m.map_w ∧
    (m.applyList l).map_c = m.map_c ∧ (m.applyList l).patch_h = m.patch_h ∧
    (m.applyList l).patch_w = m.patch_w ∧
    (m.applyList l).patch_weights = m.patch_weights := by
  induction l generalizing m with
  | nil => exact ⟨rfl, rfl, rfl, rfl, rfl, rfl⟩
  | cons e t ih =>
    rw [applyList_cons]
    exact ih (m.applyEntry e.1 e.2)

lemma applyEntry_map_val (m : WeightedPredictManager) (e : Patch × Window)
    (c : Nat) (y x : Int) :
    (m.applyEntry e.1 e.2).map c y x =
      m.map c y x + entryContrib m.patch_h m.patch_w m.patch_weights e c y x := by
  show (if inPatch m.patch_h m.patch_w e.2.y1 e.2.x1 y x then
      m.map c y x +
        m.patch_weights (y - e.2.y1) (x - e.2.x1) * e.1 c (y - e.2.y1) (x - e.2.x1)
    else m.map c y x) =
    m.map c y x + entryContrib m.patch_h m.patch_w m.patch_weights e c y x
  unfold entryContrib
  by_cases hin : inPatch m.patch_h m.patch_w e.2.y1 e.2.x1 y x
  · rw [if_pos hin, if_pos hin]
  · rw [if_neg hin, if_neg hin]
    ring

lemma applyEntry_weight_val (m : WeightedPredictManager) (e : Patch × Window)
    (y x : Int) :
    (m.applyEntry e.1 e.2).weight_map y x =
      m.weight_map y x + weightContrib m.patch_h m.patch_w m.patch_weights e y x := by
  show (if inPatch m.patch_h m.patch_w e.2.y1 e.2.x1 y x then
      m.weight_map y x + m.patch_weights (y - e.2.y1) (x - e.2.x1)
    else m.weight_map y x) =
    m.weight_map y x + weightContrib m.patch_h m.patch_w m.patch_weights e y x
  unfold weightContrib
  by_cases hin : inPatch m.patch_h m.patch_w e.2.y1 e.2.x1 y x
  · rw [if_pos hin, if_pos hin]
  · rw [if_neg hin, if_neg hin]
    ring

lemma applyList_map_val (l : List (Patch × Window)) (m : WeightedPredictManager)
    (c : Nat) (y x : Int) :
    (m.applyList l).map c y x = m.map c y x +
      (l.map (fun e => entryContrib m.patch_h m.patch_w m.patch_weights e c y x)).sum := by
  induction l generalizing m with
  | nil =>
    rw [applyList_nil, List.map_nil, List.sum_nil, add_zero]
  | cons e t ih =>
    rw [applyList_cons, ih (m.applyEntry e.1 e.2), applyEntry_map_val]
    show m.map c y x + entryContrib m.patch_h m.patch_w m.patch_weights e c y x +
        (t.map (fun e2 => entryContrib m.patch_h m.patch_w m.patch_weights e2 c y x)).sum =
      m.map c y x +
        ((e :: t).map (fun e2 => entryContrib m.patch_h m.patch_w m.patch_weights e2 c y x)).sum
    rw [List.map_cons, List.sum_cons]
    ring

lemma applyList_weight_val (l : List (Patch × Window)) (m : WeightedPredictManager)
    (y x : Int) :
    (m.applyList l).weight_map y x = m.weight_map y x +
      (l.map (fun e => weightContrib m.patch_h m.patch_w m.patch_weights e y x)).sum := by
  induction l generalizing m with
  | nil =>
    rw [applyList_nil, List.map_nil, List.sum_nil, add_zero]
  | cons e t ih =>
    rw [applyList_cons, ih (m.applyEntry e.1 e.2), applyEntry_weight_val]
    show m.weight_map y x + weightContrib m.patch_h m.patch_w m.patch_weights e y x +
        (t.map (fun e2 => weightContrib m.patch_h m.patch_w m.patch_weights e2 y x)).sum =
      m.weight_map y x +
        ((e :: t).map (fun e2 => weightContrib m.patch_h m.patch_w m.patch_weights e2 y x)).sum
    rw [List.map_cons, List.sum_cons]
    ring

lemma applyList_perm (m : WeightedPredictManager) {l l2 : List (Patch × Window)}
    (hp : l.Perm l2) : m.applyList l = m.applyList l2 := by
  have hf1 := applyList_fields l m
  have hf2 := applyList_fields l2 m
  apply WeightedPredictManager.ext
  · rw [hf1.1, hf2.1]
  · rw [hf1.2.1, hf2.2.1]
  · rw [hf1.2.2.1, hf2.2.2.1]
  · rw [hf1.2.2.2.1, hf2.2.2.2.1]
  · rw [hf1.2.2.2.2.1, hf2.2.2.2.2.1]
  · funext c y x
    rw [applyList_map_val, applyList_map_val]
    congr 1
    exact (hp.map (fun e => entryContrib m.patch_h m.patch_w m.patch_weights e c y x)).sum_eq
  · funext y x
    rw [applyList_weight_val, applyList_weight_val]
    congr 1
    exact (hp.map (fun e => weightContrib m.patch_h m.patch_w m.patch_weights e y x)).sum_eq
  · rw [hf1.2.2.2.2.2, hf2.2.2.2.2.2]

lemma updateGo_nil (m : WeightedPredictManager) : m.updateGo [] = (m, none) := rfl

lemma updateGo_cons (m : WeightedPredictManager) (e : Patch × Window)
    (rest : List (Patch × Window)) :
    m.updateGo (e :: rest) =
      if m.fits e.2 then (m.applyEntry e.1 e.2).updateGo rest
      else (m, some .assertionError) := rfl

lemma updateGo_ok (l : List (Patch × Window)) (m : WeightedPredictManager)
    (hall : ∀ e ∈ l, m.fits e.2) :
    m.updateGo l = (m.applyList l, none) := by
  induction l generalizing m with
  | nil => rfl
  | cons e t ih =>
    rw [updateGo_cons, if_pos (hall e (List.mem_cons_self e t)), applyList_cons]
    exact ih (m.applyEntry e.1 e.2)
      (fun e2 he2 => hall e2 (List.mem_cons_of_mem e he2))

lemma applyCalls_eq_applyList (cs : List (List (Patch × Window)))
    (m : WeightedPredictManager) (hfit : ∀ e ∈ cs.flatten, m.fits e.2) :
    m.applyCalls cs = m.applyList cs.flatten := by
  induction cs generalizing m with
  | nil => rfl
  | cons b t ih =>
    have hjoin : (b :: t).flatten = b ++ t.flatten := List.flatten_cons ..
    have hb : ∀ e ∈ b, m.fits e.2 := by
      intro e he
      exact hfit e (by rw [hjoin]; exact List.mem_append_left _ he)
    have hup : m.update 4 b = (m.applyList b, none) := by
      unfold WeightedPredictManager.update
      rw [if_pos rfl]
      exact updateGo_ok b m hb
    show ((m.update 4 b).1).applyCalls t = _
    rw [hup]
    have hfields := applyList_fields b m
    have ht : ∀ e ∈ t.flatten, (m.applyList b).fits e.2 := by
      intro e he
      have h2 := hfit e (by rw [hjoin]; exact List.mem_append_right _ he)
      unfold WeightedPredictManager.fits at h2 ⊢
      rw [hfields.1, hfields.2.1, hfields.2.2.2.1, hfields.2.2.2.2.1]
      exact h2
    rw [ih (m.applyList b) ht, hjoin, applyList_append]

/-- C4: `WeightedPredictManager.update` is order-independent over exact
arithmetic.  For any two ways of presenting the same multiset of
`(pred, window)` entries — any permutation, grouped arbitrarily into
successive 4-dimensional `update` batch calls — provided every window
passes the bounds assertion, the final manager state (accumulation
buffer and weight buffer) is identical. -/
theorem C4_theorem (m : WeightedPredictManager)
    (cs cs2 : List (List (Patch × Window)))
    (hperm : cs.flatten.Perm cs2.flatten)
    (hfit : ∀ e ∈ cs.flatten, m.fits e.2) :
    m.applyCalls cs = m.applyCalls cs2 := by
  have hfit2 : ∀ e ∈ cs2.flatten, m.fits e.2 :=
    fun e he => hfit e (hperm.mem_iff.mpr he)
  rw [applyCalls_eq_applyList cs m hfit,
    applyCalls_eq_applyList cs2 m hfit2]
  exact applyList_perm m hperm

/-- C4 witness: one two-entry call versus two one-entry calls in the
opposite order give the same buffers on the concrete manager `wpm0`. -/
theorem C4_witness :
    wpm0.applyCalls [[entryA, entryB]] = wpm0.applyCalls [[entryB], [entryA]] := by
  apply C4_theorem
  · show List.Perm [entryA, entryB] [entryB, entryA]
    exact List.Perm.swap entryB entryA []
  · intro e he
    have he2 : e = entryA ∨ e = entryB := by
      simpa using he
    rcases he2 with rfl | rfl
    · exact (by decide : wpm0.fits entryA.2)
    · exact (by decide : wpm0.fits entryB.2)

lemma updateGo_firstBad (pre : List (Patch × Window)) (p : Patch) (w : Window)
    (post : List (Patch × Window)) (m : WeightedPredictManager)
    (hpre : ∀ e ∈ pre, m.fits e.2) (hbad : ¬ m.fits w) :
    m.updateGo (pre ++ (p, w) :: post) = (m.applyList pre, some .assertionError) := by
  induction pre generalizing m with
  | nil =>
    rw [List.nil_append, updateGo_cons, if_neg hbad]
    rfl
  | cons e t ih =>
    rw [List.cons_append, updateGo_cons, if_pos (hpre e (List.mem_cons_self e t)),
      applyList_cons]
    exact ih (m.applyEntry e.1 e.2)
      (fun e2 he2 => hpre e2 (List.mem_cons_of_mem e he2)) hbad

/-- C8: in a single `update` call on a 4-dimensional batch, when every
entry before position `k` passes the bounds assertion and entry `k`
fails it, the call aborts with the assertion error (the spec's
OutOfBounds) after having applied — with no rollback — exactly the
entries before `k` to both buffers, and none from `k` on. -/
theorem C8_theorem (m : WeightedPredictManager) (p : Patch) (w : Window)
    (pre post : List (Patch × Window))
    (hpre : ∀ e ∈ pre, m.fits e.2)
    (hbad : ¬ m.fits w) :
    m.update 4 (pre ++ (p, w) :: post) = (m.applyList pre, some .assertionError) := by
  unfold WeightedPredictManager.update
  rw [if_pos rfl]
  exact updateGo_firstBad pre p w post m hpre hbad

/-- C8 witness: on `wpm0`, a batch whose first entry fits and whose
second is out of bounds stops with the error, the first entry applied
and the rest not. -/
theorem C8_witness :
    wpm0.update 4 [entryA, entryBad] =
      (wpm0.applyList [entryA], some .assertionError) :=
  C8_theorem wpm0 entryBad.1 entryBad.2 [entryA] []
    (by
      intro e he
      rw [List.mem_singleton] at he
      subst he
      decide)
    (by decide)

/-- C10: `update` validates `preds.ndim == 4` before touching any state:
for every batch whose dimensionality is not 4 it raises (the misspelled
assertion message itself raises AttributeError) and both buffers — the
whole manager state — are left exactly unchanged. -/
theorem C10_theorem (m : WeightedPredictManager) (ndim : Nat)
    (entries : List (Patch × Window)) (hnd : ndim ≠ 4) :
    m.update ndim entries = (m, some .attributeError) := by
  unfold WeightedPredictManager.update
  rw [if_neg hnd]

/-- C10 witness: a 3-dimensional batch is rejected with `wpm0`
unchanged. -/
theorem C10_witness : wpm0.update 3 [entryA] = (wpm0, some .attributeError) :=
  C10_theorem wpm0 3 [entryA] (by decide)

lemma filterMap_ite {α β : Type} (l : List α) (f : α → β) (p : β → Prop)
    [DecidablePred p] :
    (l.filterMap fun a => if p (f a) then none else some (f a)) =
      (l.map f).filter (fun b => ¬ p b) := by
  induction l with
  | nil => rfl
  | cons a t ih =>
    by_cases hpa : p (f a)
    · simp [List.filterMap_cons, List.filter_cons, hpa, ih]
    · simp [List.filterMap_cons, List.filter_cons, hpa, ih]

lemma filter_flatMap {α β : Type} (l : List α) (g : α → List β) (q : β → Bool) :
    (l.flatMap g).filter q = l.flatMap (fun a => (g a).filter q) := by
  induction l with
  | nil => rfl
  | cons a t ih =>
    rw [List.flatMap_cons, List.flatMap_cons, List.filter_append, ih]

/-- C9: `ImageDataset._get_tile_coordinates` retains exactly the windows
of the geometric grid whose pixel sum over the tile is nonzero, in
row-major grid order: `tile_coords` equals the grid filtered by that
predicate, its length (the dataset's `size()`) equals the count of
retained windows, and every window whose pixel sum is exactly zero is
absent — so the dataset's length depends on image content. -/
theorem C9_theorem (image : Int → Int → Nat → ℚ) (img_h img_w : Int)
    (img_c : Nat) (T O : Int) :
    ImageDataset.getTileCoordinates image img_h img_w img_c T O =
      (slideWindows img_h img_w T O).filter
        (fun wd => tileSum image wd.y1 wd.x1 T img_c ≠ 0) ∧
    (ImageDataset.getTileCoordinates image img_h img_w img_c T O).length =
      ((slideWindows img_h img_w T O).filter
        (fun wd => tileSum image wd.y1 wd.x1 T img_c ≠ 0)).length ∧
    (∀ wd ∈ slideWindows img_h img_w T O,
      tileSum image wd.y1 wd.x1 T img_c = 0 →
      wd ∉ ImageDataset.getTileCoordinates image img_h img_w img_c T O) := by
  have h1 : ImageDataset.getTileCoordinates image img_h img_w img_c T O =
      (slideWindows img_h img_w T O).filter
        (fun wd => tileSum image wd.y1 wd.x1 T img_c ≠ 0) := by
    simp only [ImageDataset.getTileCoordinates, slideWindows]
    rw [filter_flatMap]
    congr 1
    funext i
    exact filterMap_ite (List.range _)
      (fun (j : Nat) =>
        ({ y1 := min ((i : Int) * (T - O)) (img_h - T),
           y2 := min ((i : Int) * (T - O)) (img_h - T) + T,
           x1 := min ((j : Int) * (T - O)) (img_w - T),
           x2 := min ((j : Int) * (T - O)) (img_w - T) + T } : Window))
      (fun (wd : Window) => tileSum image wd.y1 wd.x1 T img_c = 0)
  refine ⟨h1, by rw [h1], ?_⟩
  intro wd hwd hsum hmem
  rw [h1] at hmem
  have h2 := List.of_mem_filter hmem
  simp only [decide_eq_true_eq] at h2
  exact h2 hsum
